import Mathlib

/-!
Verification of the jellog logging library (github.com/dekarrin/jellog).

The repository contains several near-duplicate historical versions of its
files.  This development embeds the canonical (latest) lineage, which is the
one the spec describes: the struct `Level` with the `ALL` sentinel at the
maximum representable integer and `minPossibleSeverity()` at the minimum
(level file), the `Logger` with `Copy` and the ALL-to-minimum remapping in
`AddHandler` (logger file), together with `options.go`, `stderr.go`,
`file.go` and `formatters.go`.

Modelling conventions:
  * Go strings and byte slices are modelled as `List Char` (`Str`).
  * The Go `int` type is modelled as `Int` together with the explicit bounds
    `intMin = -2^63` and `intMax = 2^63 - 1`; no arithmetic in the embedded
    code can overflow (only comparisons and map keys are used), so the bounds
    only appear as representability hypotheses.
  * Go maps are modelled as association lists whose iteration order is the
    insertion order (Go leaves map iteration order unspecified; every claim
    settled here is insensitive to the bucket enumeration order).
  * Go interface values (`Handler[E]`) are modelled by an abstract type `H`
    compared by decidable equality, which models Go's reference identity
    comparison of interface values; the dynamic `Output`/`InsertBreak`
    behaviour of handlers is passed to the dispatching functions as explicit
    function arguments.
  * Go `error` values are modelled by `Option Str` (their message), `nil`
    being `none`.
-/

/-- Go strings / byte slices, modelled as lists of characters. -/
abbrev Str := List Char

/-- Convert a Lean string literal to the `Str` model. -/
def str (s : String) : Str := s.data

/-- Maximum value of Go `int` (64-bit): `math.MaxInt`. -/
def intMax : Int := 2 ^ 63 - 1

/-- Minimum value of Go `int` (64-bit): `math.MinInt`. -/
def intMin : Int := -(2 ^ 63)

/-- `Level` from the canonical level file: a name plus a severity `int`. -/
structure Level where
  name : Str
  severity : Int
deriving DecidableEq, Repr

/-- `minPossibleSeverity()` returns `math.MinInt`. -/
def minPossibleSeverity : Int := intMin

/-- `LvTrace = Level{"TRACE", -200}`. -/
def LvTrace : Level := ⟨str "TRACE", -200⟩

/-- `LvDebug = Level{"DEBUG", -100}`. -/
def LvDebug : Level := ⟨str "DEBUG", -100⟩

/-- `LvInfo = Level{"INFO", 0}`. -/
def LvInfo : Level := ⟨str "INFO", 0⟩

/-- `LvWarn = Level{"WARN", 100}`. -/
def LvWarn : Level := ⟨str "WARN", 100⟩

/-- `LvError = Level{"ERROR", 200}`. -/
def LvError : Level := ⟨str "ERROR", 200⟩

/-- `LvFatal = Level{"FATAL", 300}`. -/
def LvFatal : Level := ⟨str "FATAL", 300⟩

/-- `LvAll = Level{"ALL", math.MaxInt}`. -/
def LvAll : Level := ⟨str "ALL", intMax⟩

/-!  Time: `time.Time` is modelled by its two clock-field views (the local
view read by `Date()`/`Clock()`/`Nanosecond()`, and the view after `t.UTC()`).
The relation between the two views (same instant) is irrelevant to every
claim, so it is not imposed. -/

/-- The fields `formatTime` reads from a `time.Time` view. -/
structure TimeFields where
  year : Nat
  month : Nat
  day : Nat
  hour : Nat
  minute : Nat
  sec : Nat
  nanosec : Nat
deriving DecidableEq, Repr

/-- A `time.Time`: its local clock fields and its `UTC()` clock fields. -/
structure GoTime where
  localFields : TimeFields
  utcFields : TimeFields
deriving DecidableEq, Repr

/-- The `itoa` loop from `formatters.go`: cheap integer to fixed-width
decimal ASCII, assembling the decimal in reverse order and prepending to
`acc` (which plays the role of `b[bp:]`).  The integer argument is a `Nat`
because every call site passes a non-negative value.  The loop is given as
structural recursion on an explicit `fuel` so that it reduces in the kernel;
`fuel` starts at `i + wid.toNat + 1`, which strictly bounds the number of
iterations (each iteration decreases `i + wid.toNat`), so the `fuel = 0`
case is never reached from `itoa`. -/
def itoaCore : Nat → Nat → Int → Str → Str
  | 0, _, _, acc => acc
  | fuel + 1, i, wid, acc =>
    if i ≥ 10 ∨ wid > 1 then
      itoaCore fuel (i / 10) (wid - 1) (Char.ofNat (48 + i % 10) :: acc)
    else
      Char.ofNat (48 + i) :: acc

/-- `itoa(&buf, i, wid)` from `formatters.go`: the bytes appended to `buf`. -/
def itoa (i : Nat) (wid : Int) : Str := itoaCore (i + wid.toNat + 1) i wid []

/-- `formatTime` from `formatters.go`: renders `YYYY/MM/DD HH:MM:SS` with an
optional `.` plus six microsecond digits, reading the UTC view when `utc`. -/
def formatTime (t : GoTime) (utc micros : Bool) : Str :=
  let f := if utc then t.utcFields else t.localFields
  itoa f.year 4 ++ ['/'] ++ itoa f.month 2 ++ ['/'] ++ itoa f.day 2 ++ [' ']
    ++ itoa f.hour 2 ++ [':'] ++ itoa f.minute 2 ++ [':'] ++ itoa f.sec 2
    ++ (if micros then ['.'] ++ itoa (f.nanosec / 1000) 6 else [])

/-- `Event[E]` from the package file: component, time, level, message. -/
structure Event (E : Type) where
  component : Str
  time : GoTime
  level : Level
  message : E

/-- `LineFormat` from `formatters.go` (the field typo is the source's). -/
structure LineFormat where
  UTC : Bool := false
  ShowMircoseconds : Bool := false
deriving DecidableEq, Repr

/-- `%-5s`: left-justify to a minimum field width of 5 with trailing spaces,
never truncating. -/
def padLevel (s : Str) : Str := s ++ List.replicate (5 - s.length) ' '

/-- The newline-completion at the top of `LineFormat.Format`: a `'\n'` is
appended iff the message does not already end in one. -/
def withNL (msg : Str) : Str := if ['\n'].isSuffixOf msg then msg else msg ++ ['\n']

/-- `LineFormat.Format` from `formatters.go`: `"<time> <level padded to 5>
[(<component>) ]<message-ending-in-newline>"`. -/
def LineFormat.Format (lf : LineFormat) (evt : Event Str) : Str :=
  let msg := withNL evt.message
  let timeStr := formatTime evt.time lf.UTC lf.ShowMircoseconds
  if evt.component ≠ [] then
    timeStr ++ [' '] ++ padLevel evt.level.name ++ [' ', '('] ++ evt.component
      ++ [')', ' '] ++ msg
  else
    timeStr ++ [' '] ++ padLevel evt.level.name ++ [' '] ++ msg

/-- `LineFormat.Break` returns the single newline byte. -/
def LineFormat.Break (_ : LineFormat) : Str := ['\n']

/-- `defFormatter = LineFormat{}` from the package file. -/
def defFormatter : LineFormat := {}

/-! ## Handlers (stderr.go, file.go) -/

/-- The component-chaining step shared by `StderrHandler.Output`,
`FileHandler.Output` and `Logger.Output`:

```go
if opts.Component != "" {
    if evt.Component != "" {
        evt.Component += "."
    }
    evt.Component += opts.Component
}
```
-/
def chainComponent (optsComp evtComp : Str) : Str :=
  if optsComp ≠ [] then
    (if evtComp ≠ [] then evtComp ++ ['.'] else evtComp) ++ optsComp
  else evtComp

/-- The options fields a concrete handler reads (`Component`, `Formatter`
from `Options[string]`; the converter/handler fields of the full options
struct are never consulted by the handler methods).  The only `Formatter`
implementation in the repository is `LineFormat`. -/
structure HandlerOpts where
  component : Str := []
  formatter : Option LineFormat := none

/-- `opts.Formatter` if non-nil, else `defFormatter` — the selection made in
every handler method body. -/
def HandlerOpts.fmt (opts : HandlerOpts) : LineFormat :=
  match opts.formatter with
  | some f => f
  | none => defFormatter

/-- `StderrHandler` from `stderr.go`. -/
structure StderrHandler where
  opts : HandlerOpts

/-- `StderrHandler.Output`: chains the component, formats, and writes the
bytes to stderr (the returned value is the byte sequence written; the write
error of `os.Stderr.Write` is an external I/O outcome). -/
def StderrHandler.Output (seh : StderrHandler) (evt : Event Str) : Str :=
  let evt' := { evt with component := chainComponent seh.opts.component evt.component }
  seh.opts.fmt.Format evt'

/-- `StderrHandler.InsertBreak`: the bytes written to stderr. -/
def StderrHandler.InsertBreak (seh : StderrHandler) : Str :=
  seh.opts.fmt.Break

/-- `FileHandler` from `file.go`.  `f` is the `*os.File` handle: `none`
models the nil handle of a zero-value / unconstructed handler. -/
structure FileHandler where
  opts : HandlerOpts
  f : Option Unit

/-- A write through a `*os.File` handle.  On a nil handle, Go's
`os.File.Write` fails its validity check and returns `os.ErrInvalid`
("invalid argument") — modelled from the Go standard library.  On an open
handle the result is the byte sequence written (write errors are an
external I/O outcome). -/
def fileWrite (f : Option Unit) (buf : Str) : Except Str Str :=
  match f with
  | none => .error (str "invalid argument")
  | some _ => .ok buf

/-- `FileHandler.InsertBreak` from `file.go`: note there is no nil-handle
check here — the break bytes are written directly through `fh.f`. -/
def FileHandler.InsertBreak (fh : FileHandler) : Except Str Str :=
  fileWrite fh.f fh.opts.fmt.Break

/-- `FileHandler.Output` from `file.go`: fails early with the distinct
"not opened" error when the handle is nil, otherwise chains the component,
formats and writes. -/
def FileHandler.Output (fh : FileHandler) (evt : Event Str) : Except Str Str :=
  if fh.f = none then
    .error (str "Output() called on FileHandler created without OpenFile")
  else
    let evt' := { evt with component := chainComponent fh.opts.component evt.component }
    fileWrite fh.f (fh.opts.fmt.Format evt')

/-! ## Payload conversion (New's default converter) -/

/-- The universe of values passed to the logging API (Go `any`), restricted
to the ground types exercised here. -/
inductive GoValue where
  | vstr (s : Str)
  | vint (n : Int)
  | vbool (b : Bool)
deriving DecidableEq, Repr

/-- `fmt.Sprintf("%v", v)` on the `GoValue` universe — modelled from the Go
standard library: a string renders as itself, an int in decimal, a bool as
`true`/`false`. -/
def sprintfV : GoValue → Str
  | .vstr s => s
  | .vint n => str (toString n)
  | .vbool b => if b then str "true" else str "false"

/-- What `New` can observe about the payload type parameter `E`: whether it
is the Go `string` type (the `any(empty).(string)` test), its zero value
(`var empty E`), and — meaningful only when `isString` — the coercion
`any(s).(E)` of a string into `E`. -/
class GoPayload (E : Type) where
  isString : Bool
  zero : E
  fromString : Str → E

/-- The payload type `string` (modelled as `Str`). -/
instance : GoPayload Str := ⟨true, [], id⟩

/-- A representative non-string payload type. -/
instance : GoPayload Int := ⟨false, 0, fun _ => 0⟩

/-! ## Logger (canonical logger file) -/

/-- `Options[E]` from `options.go` as consumed by `New`/`Copy`: generic
handler options plus the converter and the pre-registration handler map.
The `Handlers` map is an association list `Level → []Handler` in insertion
order.  `H` is the abstract handler-identity type. -/
structure GOptions (E H : Type) where
  component : Str := []
  formatter : Option LineFormat := none
  converter : Option (GoValue → E) := none
  handlers : List (Level × List H) := []

/-- `Defaults()`: an `Options[E]` with every property at its default. -/
def Defaults (E H : Type) : GOptions E H := {}

/-- A Go map `K → []H` update `m[k] = append(m[k], hs...)`, on the
association-list model of maps (a missing key is appended at the end,
matching insertion-order iteration). -/
def bucketAdd {K H : Type} [DecidableEq K] (reg : List (K × List H)) (k : K)
    (hs : List H) : List (K × List H) :=
  if reg.any (fun e => e.1 = k) then
    reg.map (fun e => if e.1 = k then (e.1, e.2 ++ hs) else e)
  else reg ++ [(k, hs)]

/-- `Logger[E]`: its configured options (with the converter already
resolved by `New`) and the handler registry `h map[int][]Handler[E]`. -/
structure Logger (E H : Type) where
  component : Str
  formatter : Option LineFormat
  converter : GoValue → E
  reg : List (Int × List H)

/-- The severity a registration level is bucketed under: the `ALL` sentinel
severity is remapped to `minPossibleSeverity()`. -/
def registerSeverity (lv : Level) : Int :=
  if lv.severity = LvAll.severity then minPossibleSeverity else lv.severity

/-- `Logger.AddHandler`: buckets the handler under the level's severity,
remapping the `ALL` sentinel severity to `minPossibleSeverity()`. -/
def Logger.AddHandler {E H : Type} (lg : Logger E H) (lv : Level) (out : H) :
    Logger E H :=
  let sev := registerSeverity lv
  { lg with reg := bucketAdd lg.reg sev [out] }

/-- `New` from the canonical logger file: resolves the converter (default
depends on whether `E` is the string type) and pre-registers
`opts.Handlers` through `AddHandler`. -/
def New {E H : Type} [GoPayload E] (opts : GOptions E H) : Logger E H :=
  let conv : GoValue → E :=
    match opts.converter with
    | some c => c
    | none =>
      if @GoPayload.isString E _ then fun v => GoPayload.fromString (sprintfV v)
      else fun _ => @GoPayload.zero E _
  let lg0 : Logger E H :=
    { component := opts.component, formatter := opts.formatter,
      converter := conv, reg := [] }
  opts.handlers.foldl (fun lg e => e.2.foldl (fun lgI h => lgI.AddHandler e.1 h) lg) lg0

/-- `Logger.HandlersForLevel`: the concatenation of every bucket whose
threshold is at most the level's severity. -/
def Logger.HandlersForLevel {E H : Type} (lg : Logger E H) (lv : Level) : List H :=
  ((lg.reg.filter (fun e => e.1 ≤ lv.severity)).map (fun e => e.2)).flatten

/-- The error-aggregation loop shared by `Logger.Output` and
`Logger.InsertBreak` (errors are modelled by their message strings;
the "hander" typo is the source's):

```go
if err != nil {
    if fullErr != nil {
        fullErr = fmt.Errorf("%s\nhander: %w", fullErr.Error(), err)
    } else {
        fullErr = fmt.Errorf("handler: %w", err)
    }
}
```
-/
def errStep (fullErr err : Option Str) : Option Str :=
  match err with
  | none => fullErr
  | some e =>
    match fullErr with
    | none => some (str "handler: " ++ e)
    | some f => some (f ++ str "\nhander: " ++ e)

/-- See `errStep`: the whole aggregation loop, starting from a nil error. -/
def combineErrors (results : List (Option Str)) : Option Str :=
  results.foldl errStep none

/-- `Logger.Output`: chains the logger's component onto the event, looks up
the matching handlers, calls every handler's `Output` and aggregates the
errors.  `hOut` is the dynamic `Output` behaviour of the handler values. -/
def Logger.Output {E H : Type} (hOut : H → Event E → Option Str)
    (lg : Logger E H) (evt : Event E) : Option Str :=
  let evt' := { evt with component := chainComponent lg.component evt.component }
  let dispatch := lg.HandlersForLevel evt'.level
  combineErrors (dispatch.map (fun h => hOut h evt'))

/-- `Logger.InsertBreak`: same fan-out as `Output`, calling each handler's
`InsertBreak` (dynamic behaviour `hBrk`) and aggregating identically. -/
def Logger.InsertBreak {E H : Type} (hBrk : H → Option Str)
    (lg : Logger E H) (lv : Level) : Option Str :=
  combineErrors ((lg.HandlersForLevel lv).map hBrk)

/-- The threshold-to-`Level` reconstruction inside `Logger.Copy`. -/
def reconstructLevel (sev : Int) : Level :=
  if sev = minPossibleSeverity then LvAll
  else if sev = LvFatal.severity then LvFatal
  else if sev = LvError.severity then LvError
  else if sev = LvWarn.severity then LvWarn
  else if sev = LvInfo.severity then LvInfo
  else if sev = LvDebug.severity then LvDebug
  else if sev = LvTrace.severity then LvTrace
  else ⟨[], sev⟩

/-- `Logger.Copy`: three-way merge of the original logger with the new
options — current handlers not mentioned in `opts.Handlers` are carried
over at their reconstructed level, then every handler of `opts.Handlers`
is added at the option's level; non-handler fields prefer the explicit
option value.  Handler sameness is decidable equality of the abstract
handler values (Go's pointer comparison `entry.h == add`). -/
def Logger.Copy {E H : Type} [GoPayload E] [DecidableEq H]
    (lg : Logger E H) (opts : GOptions E H) : Logger E H :=
  let mergedComponent := if opts.component = [] then lg.component else opts.component
  let mergedFormatter :=
    match opts.formatter with
    | none => lg.formatter
    | some f => some f
  let mergedConverter :=
    match opts.converter with
    | none => some lg.converter
    | some c => some c
  let current : List (H × Int) :=
    (lg.reg.map (fun e => e.2.map (fun h => (h, e.1)))).flatten
  let optAdded : List H := (opts.handlers.map (fun e => e.2)).flatten
  let mergedA : List (Level × List H) :=
    current.foldl
      (fun acc entry =>
        if optAdded.any (fun a => entry.1 = a) then acc
        else bucketAdd acc (reconstructLevel entry.2) [entry.1])
      []
  let mergedHandlers : List (Level × List H) :=
    opts.handlers.foldl (fun acc e => bucketAdd acc e.1 e.2) mergedA
  New { component := mergedComponent, formatter := mergedFormatter,
        converter := mergedConverter, handlers := mergedHandlers }

/-! ## Substring occurrence counting (used by the formatter claims) -/

/-- Number of positions of `l` at which `pat` occurs (overlaps counted). -/
def countSub : Str → Str → Nat
  | [], pat => if pat = [] then 1 else 0
  | c :: rest, pat =>
    (if pat.isPrefixOf (c :: rest) then 1 else 0) + countSub rest pat

/-- A sequence of further `AddHandler` registrations, applied in order. -/
def applyAdds {E H : Type} (lg : Logger E H) (adds : List (Level × H)) : Logger E H :=
  adds.foldl (fun g p => g.AddHandler p.1 p.2) lg

/-- The registry bucket stored under a severity threshold. -/
def bucketOf {H : Type} (reg : List (Int × List H)) (sev : Int) : List H :=
  ((reg.filter (fun e => e.1 = sev)).map (fun e => e.2)).flatten

/-! # Helper lemmas -/

theorem foldl_errStep_some (l : List (Option Str)) (f : Str) :
    ∃ g, l.foldl errStep (some f) = some g ∧ f <+: g := by
  induction l generalizing f with
  | nil => exact ⟨f, rfl, List.prefix_refl f⟩
  | cons x rest ih =>
    cases x with
    | none => simpa [errStep] using ih f
    | some e =>
      obtain ⟨g, hg, hp⟩ := ih (f ++ str "\nhander: " ++ e)
      refine ⟨g, by simpa [errStep] using hg, ?_⟩
      have h1 : f <+: f ++ str "\nhander: " ++ e := by
        rw [List.append_assoc]
        exact List.prefix_append f (str "\nhander: " ++ e)
      exact h1.trans hp

theorem combineErrors_eq_none_iff (l : List (Option Str)) :
    combineErrors l = none ↔ ∀ x ∈ l, x = none := by
  unfold combineErrors
  induction l with
  | nil => simp
  | cons x rest ih =>
    cases x with
    | none => simpa [errStep] using ih
    | some e =>
      obtain ⟨g, hg, _⟩ := foldl_errStep_some rest (str "handler: " ++ e)
      simp only [List.foldl_cons, errStep]
      rw [hg]
      simp

theorem foldl_errStep_infix (l : List (Option Str)) (acc : Option Str) (e : Str)
    (h : some e ∈ l) : ∃ g, l.foldl errStep acc = some g ∧ e <:+: g := by
  induction l generalizing acc with
  | nil => cases h
  | cons x rest ih =>
    rcases List.mem_cons.mp h with hx | hrest
    · cases hx
      cases acc with
      | none =>
        obtain ⟨g, hg, hp⟩ := foldl_errStep_some rest (str "handler: " ++ e)
        exact ⟨g, by simpa [errStep] using hg,
          ((List.suffix_append (str "handler: ") e).isInfix).trans hp.isInfix⟩
      | some f =>
        obtain ⟨g, hg, hp⟩ := foldl_errStep_some rest (f ++ str "\nhander: " ++ e)
        exact ⟨g, by simpa [errStep] using hg,
          ((List.suffix_append (f ++ str "\nhander: ") e).isInfix).trans hp.isInfix⟩
    · simpa [List.foldl_cons] using ih (errStep acc x) hrest

theorem combineErrors_infix (l : List (Option Str)) (e : Str) (h : some e ∈ l) :
    ∃ g, combineErrors l = some g ∧ e <:+: g :=
  foldl_errStep_infix l none e h

/-! # Claims -/

/-- C4: every Logger dispatch (`Output` or `InsertBreak`) attempts every
matching handler even when earlier handlers return errors (each non-nil
handler error is collected — it appears inside the single combined error,
which is in particular non-nil), and the dispatch returns nil iff zero
handlers returned an error. -/
theorem logger_dispatch_error_aggregation {E H : Type}
    (hOut : H → Event E → Option Str) (hBrk : H → Option Str)
    (lg : Logger E H) (evt : Event E) (lv : Level) :
    (Logger.Output hOut lg evt = none ↔
      ∀ x ∈ lg.HandlersForLevel evt.level,
        hOut x { evt with component := chainComponent lg.component evt.component } = none) ∧
    (∀ x ∈ lg.HandlersForLevel evt.level, ∀ e,
        hOut x { evt with component := chainComponent lg.component evt.component } = some e →
        ∃ g, Logger.Output hOut lg evt = some g ∧ e <:+: g) ∧
    (Logger.InsertBreak hBrk lg lv = none ↔
      ∀ x ∈ lg.HandlersForLevel lv, hBrk x = none) ∧
    (∀ x ∈ lg.HandlersForLevel lv, ∀ e, hBrk x = some e →
        ∃ g, Logger.InsertBreak hBrk lg lv = some g ∧ e <:+: g) := by
  refine ⟨?_, ?_, ?_, ?_⟩
  · unfold Logger.Output
    rw [combineErrors_eq_none_iff]
    simp
  · intro x hx e he
    unfold Logger.Output
    exact foldl_errStep_infix _ none e (List.mem_map.mpr ⟨x, hx, he⟩)
  · unfold Logger.InsertBreak
    rw [combineErrors_eq_none_iff]
    simp
  · intro x hx e he
    unfold Logger.InsertBreak
    exact foldl_errStep_infix _ none e (List.mem_map.mpr ⟨x, hx, he⟩)

/-- Witness for C4: with two handlers at INFO whose outputs both fail, the
second handler's error is still collected into the combined error. -/
theorem logger_dispatch_error_aggregation_witness :
    ∃ g, Logger.Output
        (fun (h : Nat) (_ : Event Str) =>
          if h = 1 then some (str "boom") else some (str "pow"))
        (((New (Defaults Str Nat)).AddHandler LvInfo 1).AddHandler LvInfo 2)
        ⟨[], ⟨⟨0,0,0,0,0,0,0⟩, ⟨0,0,0,0,0,0,0⟩⟩, LvInfo, str "m"⟩ = some g ∧
      str "pow" <:+: g :=
  (logger_dispatch_error_aggregation
      (fun (h : Nat) (_ : Event Str) =>
        if h = 1 then some (str "boom") else some (str "pow"))
      (fun _ => none)
      (((New (Defaults Str Nat)).AddHandler LvInfo 1).AddHandler LvInfo 2)
      ⟨[], ⟨⟨0,0,0,0,0,0,0⟩, ⟨0,0,0,0,0,0,0⟩⟩, LvInfo, str "m"⟩
      LvInfo).2.1 2 (by decide) (str "pow") (by decide)

theorem exists_entry_bucketAdd_iff {K H : Type} [DecidableEq K]
    (reg : List (K × List H)) (k : K) (hs : List H) (p : K → Prop) (x : H) :
    (∃ e ∈ bucketAdd reg k hs, p e.1 ∧ x ∈ e.2) ↔
      (∃ e ∈ reg, p e.1 ∧ x ∈ e.2) ∨ (p k ∧ x ∈ hs) := by
  unfold bucketAdd
  by_cases hp : reg.any (fun e => e.1 = k) = true
  · simp only [hp, if_true, List.mem_map]
    constructor
    · rintro ⟨e', ⟨e, he, rfl⟩, hpe, hxe⟩
      by_cases hek : e.1 = k
      · simp only [if_pos hek] at hpe hxe
        rcases List.mem_append.mp hxe with hl | hr
        · exact Or.inl ⟨e, he, hpe, hl⟩
        · exact Or.inr ⟨hek ▸ hpe, hr⟩
      · simp only [if_neg hek] at hpe hxe
        exact Or.inl ⟨e, he, hpe, hxe⟩
    · rintro (⟨e, he, hpe, hxe⟩ | ⟨hpk, hxs⟩)
      · refine ⟨if e.1 = k then (e.1, e.2 ++ hs) else e, ⟨e, he, rfl⟩, ?_⟩
        by_cases hek : e.1 = k
        · simp only [if_pos hek]
          exact ⟨hpe, List.mem_append.mpr (Or.inl hxe)⟩
        · simp only [if_neg hek]
          exact ⟨hpe, hxe⟩
      · obtain ⟨e, he, hek⟩ := List.any_eq_true.mp hp
        have hek' : e.1 = k := by simpa using hek
        refine ⟨(e.1, e.2 ++ hs), ⟨e, he, by simp [hek']⟩, ?_⟩
        simp [hek', hpk, hxs]
  · simp only [hp, if_false]
    constructor
    · rintro ⟨e, he, hpe, hxe⟩
      rcases List.mem_append.mp he with hl | hr
      · exact Or.inl ⟨e, hl, hpe, hxe⟩
      · rcases List.mem_singleton.mp hr with rfl
        exact Or.inr ⟨hpe, hxe⟩
    · rintro (⟨e, he, hpe, hxe⟩ | ⟨hpk, hxs⟩)
      · exact ⟨e, List.mem_append.mpr (Or.inl he), hpe, hxe⟩
      · exact ⟨(k, hs), List.mem_append.mpr (Or.inr (List.mem_singleton.mpr rfl)), hpk, hxs⟩

theorem mem_handlersForLevel_iff {E H : Type} (lg : Logger E H) (lv : Level) (x : H) :
    x ∈ lg.HandlersForLevel lv ↔ ∃ e ∈ lg.reg, e.1 ≤ lv.severity ∧ x ∈ e.2 := by
  simp [Logger.HandlersForLevel, List.mem_flatten]
  aesop

theorem mem_bucketOf_iff {H : Type} (reg : List (Int × List H)) (sev : Int) (x : H) :
    x ∈ bucketOf reg sev ↔ ∃ e ∈ reg, e.1 = sev ∧ x ∈ e.2 := by
  simp [bucketOf, List.mem_flatten]
  aesop

theorem addHandler_reg {E H : Type} (lg : Logger E H) (lv : Level) (out : H) :
    (lg.AddHandler lv out).reg =
      bucketAdd lg.reg
        (if lv.severity = LvAll.severity then minPossibleSeverity else lv.severity)
        [out] := rfl

theorem addHandler_preserves_mem {E H : Type} (lg : Logger E H) (h : H)
    (L lv : Level) (out : H) (hh : h ∈ lg.HandlersForLevel L) :
    h ∈ (lg.AddHandler lv out).HandlersForLevel L := by
  rw [mem_handlersForLevel_iff] at hh ⊢
  rw [addHandler_reg]
  exact (exists_entry_bucketAdd_iff lg.reg _ [out]
    (fun a => a ≤ L.severity) h).mpr (Or.inl hh)

theorem applyAdds_preserves_mem {E H : Type} (adds : List (Level × H))
    (lg : Logger E H) (h : H) (L : Level) (hh : h ∈ lg.HandlersForLevel L) :
    h ∈ (applyAdds lg adds).HandlersForLevel L := by
  induction adds generalizing lg with
  | nil => exact hh
  | cons a rest ih => exact ih _ (addHandler_preserves_mem lg h L a.1 a.2 hh)

/-- C1: registering a handler at the `ALL` sentinel buckets it at the lowest
representable severity `minPossibleSeverity() = math.MinInt`, so the handler
is in `HandlersForLevel L` for every representable level `L` (in particular
levels below TRACE), and it stays there under any sequence of further
registrations. -/
theorem addHandler_all_bucketed_at_min {E H : Type} (lg : Logger E H) (h : H)
    (L : Level) (hL : intMin ≤ L.severity) :
    h ∈ bucketOf (lg.AddHandler LvAll h).reg minPossibleSeverity ∧
    h ∈ (lg.AddHandler LvAll h).HandlersForLevel L ∧
    ∀ adds : List (Level × H),
      h ∈ (applyAdds (lg.AddHandler LvAll h) adds).HandlersForLevel L := by
  have hbase : h ∈ (lg.AddHandler LvAll h).HandlersForLevel L := by
    rw [mem_handlersForLevel_iff, addHandler_reg]
    refine (exists_entry_bucketAdd_iff lg.reg _ [h]
      (fun a => a ≤ L.severity) h).mpr (Or.inr ?_)
    simp only [if_pos rfl]
    exact ⟨hL, List.mem_singleton.mpr rfl⟩
  refine ⟨?_, hbase, fun adds => applyAdds_preserves_mem adds _ h L hbase⟩
  rw [mem_bucketOf_iff, addHandler_reg]
  refine (exists_entry_bucketAdd_iff lg.reg _ [h]
    (fun a => a = minPossibleSeverity) h).mpr (Or.inr ?_)
  simp only [if_pos rfl]
  exact ⟨rfl, List.mem_singleton.mpr rfl⟩

/-- Witness for C1: a handler registered at `LvAll` on a fresh logger sits in
the `math.MinInt` bucket, receives TRACE-level dispatches, and still does so
after a further registration. -/
theorem addHandler_all_bucketed_at_min_witness :
    7 ∈ bucketOf ((New (Defaults Str Nat)).AddHandler LvAll 7).reg minPossibleSeverity ∧
    7 ∈ ((New (Defaults Str Nat)).AddHandler LvAll 7).HandlersForLevel LvTrace ∧
    7 ∈ (applyAdds ((New (Defaults Str Nat)).AddHandler LvAll 7)
          [(LvInfo, 3)]).HandlersForLevel LvTrace :=
  ⟨(addHandler_all_bucketed_at_min (New (Defaults Str Nat)) 7 LvTrace (by decide)).1,
   (addHandler_all_bucketed_at_min (New (Defaults Str Nat)) 7 LvTrace (by decide)).2.1,
   (addHandler_all_bucketed_at_min (New (Defaults Str Nat)) 7 LvTrace (by decide)).2.2
     [(LvInfo, 3)]⟩

/-- Counterexample to C3 as stated: a handler registered at threshold
`LvAll` IS reached when dispatching at `LvInfo`, whose severity is strictly
below `LvAll`'s — because `AddHandler` remaps the `ALL` sentinel to the
minimum severity. -/
theorem threshold_monotonicity_counterexample :
    LvInfo.severity < LvAll.severity ∧
      0 ∈ ((New (Defaults Str Nat)).AddHandler LvAll 0).HandlersForLevel LvInfo := by
  constructor
  · decide
  · decide

/-- C3 (amended): for a handler registered at threshold `L1`, dispatching at
any `L2` with `L1.severity ≤ L2.severity` reaches it; and a freshly
registered handler is not reached at a level strictly below `L1` provided
`L1` is not the `ALL` sentinel severity (registration at `ALL` is remapped
to the minimum severity, so such a handler is reached everywhere). -/
theorem threshold_monotonicity {E H : Type} (lg : Logger E H) (h : H)
    (L1 L2 : Level) :
    (L1.severity ≤ L2.severity → h ∈ (lg.AddHandler L1 h).HandlersForLevel L2) ∧
    (L2.severity < L1.severity → L1.severity ≠ LvAll.severity →
      (∀ e ∈ lg.reg, h ∉ e.2) →
      h ∉ (lg.AddHandler L1 h).HandlersForLevel L2) := by
  constructor
  · intro hle
    rw [mem_handlersForLevel_iff, addHandler_reg]
    refine (exists_entry_bucketAdd_iff lg.reg _ [h]
      (fun a => a ≤ L2.severity) h).mpr (Or.inr ⟨?_, List.mem_singleton.mpr rfl⟩)
    by_cases hall : L1.severity = LvAll.severity
    · simp only [if_pos hall]
      have h1 : LvAll.severity ≤ L2.severity := hall ▸ hle
      have h2 : minPossibleSeverity ≤ LvAll.severity := by decide
      exact le_trans h2 h1
    · simpa only [if_neg hall] using hle
  · intro hlt hall hfresh hmem
    rw [mem_handlersForLevel_iff, addHandler_reg] at hmem
    rcases (exists_entry_bucketAdd_iff lg.reg _ [h]
        (fun a => a ≤ L2.severity) h).mp hmem with ⟨e, he, _, hxe⟩ | ⟨hk, _⟩
    · exact hfresh e he hxe
    · rw [if_neg hall] at hk
      omega

/-- Witness for the amended C3: a handler at INFO is reached at WARN and is
not reached at DEBUG. -/
theorem threshold_monotonicity_witness :
    5 ∈ ((New (Defaults Str Nat)).AddHandler LvInfo 5).HandlersForLevel LvWarn ∧
    5 ∉ ((New (Defaults Str Nat)).AddHandler LvInfo 5).HandlersForLevel LvDebug :=
  ⟨(threshold_monotonicity (New (Defaults Str Nat)) 5 LvInfo LvWarn).1 (by decide),
   (threshold_monotonicity (New (Defaults Str Nat)) 5 LvInfo LvDebug).2
     (by decide) (by decide) (by decide)⟩

/-- C10: since `LvAll`'s severity is the maximum representable integer,
every bucket whose threshold is a representable Go `int` satisfies the
`threshold ≤ LvAll.severity` test, so `HandlersForLevel LvAll` is exactly
the concatenation of all buckets, it contains every registered handler, and
an `InsertBreak` at `LvAll` fans out over every registered handler. -/
theorem handlersForLevel_all_is_every_handler {E H : Type} (lg : Logger E H)
    (hk : ∀ e ∈ lg.reg, e.1 ≤ intMax) :
    lg.HandlersForLevel LvAll = (lg.reg.map (fun e => e.2)).flatten ∧
    (∀ x : H, (∃ e ∈ lg.reg, x ∈ e.2) → x ∈ lg.HandlersForLevel LvAll) ∧
    (∀ hBrk : H → Option Str,
      Logger.InsertBreak hBrk lg LvAll =
        combineErrors (((lg.reg.map (fun e => e.2)).flatten).map hBrk)) := by
  have hfilter : lg.reg.filter (fun e => e.1 ≤ LvAll.severity) = lg.reg := by
    rw [List.filter_eq_self]
    intro e he
    have : e.1 ≤ intMax := hk e he
    simpa [LvAll] using this
  have hmain : lg.HandlersForLevel LvAll = (lg.reg.map (fun e => e.2)).flatten := by
    unfold Logger.HandlersForLevel
    rw [hfilter]
  refine ⟨hmain, ?_, ?_⟩
  · intro x hx
    rw [mem_handlersForLevel_iff]
    obtain ⟨e, he, hxe⟩ := hx
    exact ⟨e, he, by simpa [LvAll] using hk e he, hxe⟩
  · intro hBrk
    unfold Logger.InsertBreak
    rw [hmain]

/-- Witness for C10: a logger with handlers at INFO and TRACE; both are
returned by `HandlersForLevel LvAll`. -/
theorem handlersForLevel_all_is_every_handler_witness :
    (((New (Defaults Str Nat)).AddHandler LvInfo 1).AddHandler LvTrace 2).HandlersForLevel
        LvAll =
      ((((New (Defaults Str Nat)).AddHandler LvInfo 1).AddHandler LvTrace 2).reg.map
        (fun e => e.2)).flatten ∧
    2 ∈ ((((New (Defaults Str Nat)).AddHandler LvInfo 1).AddHandler
        LvTrace 2).HandlersForLevel LvAll) :=
  ⟨(handlersForLevel_all_is_every_handler
      (((New (Defaults Str Nat)).AddHandler LvInfo 1).AddHandler LvTrace 2)
      (by decide)).1,
   (handlersForLevel_all_is_every_handler
      (((New (Defaults Str Nat)).AddHandler LvInfo 1).AddHandler LvTrace 2)
      (by decide)).2.1 2 (by decide)⟩

/-- Counterexample to C2 as stated: a stderr handler with component `"h"`
receiving an event with component `"e"` does NOT produce the output of the
prepended component `"h.e"` — the handler's component is appended, giving
`"e.h"`. -/
theorem component_chaining_counterexample :
    StderrHandler.Output ⟨⟨str "h", none⟩⟩
        ⟨str "e", ⟨⟨0,0,0,0,0,0,0⟩, ⟨0,0,0,0,0,0,0⟩⟩, LvInfo, str "m"⟩ ≠
      defFormatter.Format
        { component := str "h" ++ ['.'] ++ str "e",
          time := ⟨⟨0,0,0,0,0,0,0⟩, ⟨0,0,0,0,0,0,0⟩⟩,
          level := LvInfo, message := str "m" } := by
  decide

/-- C2 (amended): with a non-empty configured component and a non-empty
event component, stderr and file handlers APPEND their component to the
event's component joined with `.` before formatting (not prepend), and the
Logger does the same during `Output`; when the event component is empty the
configured component is used without a joining dot. -/
theorem component_chaining {E H : Type} (opts : HandlerOpts) (evt : Event Str)
    (hOut : H → Event E → Option Str) (lg : Logger E H) (evtE : Event E)
    (h1 : opts.component ≠ []) (h2 : evt.component ≠ [])
    (h3 : lg.component ≠ []) (h4 : evtE.component ≠ []) :
    StderrHandler.Output ⟨opts⟩ evt =
      opts.fmt.Format
        { evt with component := evt.component ++ ['.'] ++ opts.component } ∧
    FileHandler.Output ⟨opts, some ()⟩ evt =
      .ok (opts.fmt.Format
        { evt with component := evt.component ++ ['.'] ++ opts.component }) ∧
    Logger.Output hOut lg evtE =
      combineErrors ((lg.HandlersForLevel evtE.level).map
        (fun x => hOut x
          { evtE with component := evtE.component ++ ['.'] ++ lg.component })) ∧
    (∀ c : Str, c ≠ [] → chainComponent c [] = c) := by
  have hchain : ∀ (oc ec : Str), oc ≠ [] → ec ≠ [] →
      chainComponent oc ec = ec ++ ['.'] ++ oc := by
    intro oc ec ho he
    simp [chainComponent, ho, he]
  refine ⟨?_, ?_, ?_, ?_⟩
  · unfold StderrHandler.Output
    rw [hchain _ _ h1 h2]
  · unfold FileHandler.Output
    rw [if_neg (by simp)]
    unfold fileWrite
    rw [hchain _ _ h1 h2]
  · unfold Logger.Output
    rw [hchain _ _ h3 h4]
  · intro c hc
    simp [chainComponent, hc]

/-- Witness for the amended C2 at a concrete handler and event. -/
theorem component_chaining_witness :
    StderrHandler.Output ⟨⟨str "h", none⟩⟩
        ⟨str "e", ⟨⟨0,0,0,0,0,0,0⟩, ⟨0,0,0,0,0,0,0⟩⟩, LvInfo, str "m"⟩ =
      (HandlerOpts.fmt ⟨str "h", none⟩).Format
        { component := str "e" ++ ['.'] ++ str "h",
          time := ⟨⟨0,0,0,0,0,0,0⟩, ⟨0,0,0,0,0,0,0⟩⟩,
          level := LvInfo, message := str "m" } :=
  (component_chaining ⟨str "h", none⟩
      ⟨str "e", ⟨⟨0,0,0,0,0,0,0⟩, ⟨0,0,0,0,0,0,0⟩⟩, LvInfo, str "m"⟩
      (fun (_ : Nat) (_ : Event Str) => none)
      (New { component := str "L" })
      ⟨str "e", ⟨⟨0,0,0,0,0,0,0⟩, ⟨0,0,0,0,0,0,0⟩⟩, LvInfo, str "m"⟩
      (by decide) (by decide) (by decide) (by decide)).1

/-- Counterexample to C7 as stated: `InsertBreak` on a zero-value
`FileHandler` does NOT fail with the distinct "not opened" error — the nil
check exists only in `Output`; `InsertBreak` writes straight through the nil
handle and gets the generic `os.ErrInvalid` error back. -/
theorem file_not_opened_counterexample :
    FileHandler.InsertBreak ⟨⟨[], none⟩, none⟩ ≠
      Except.error (str "Output() called on FileHandler created without OpenFile") := by
  simp only [FileHandler.InsertBreak, fileWrite]
  intro h
  exact absurd (Except.error.inj h) (by decide)

/-- C7 (amended): on a zero-value / unconstructed `FileHandler` (nil file
handle), `Output` fails with the distinct "not opened" error; `InsertBreak`
also fails — without dereferencing the missing handle — but with the generic
"invalid argument" error returned by the nil-handle write, which is distinct
from the "not opened" error. -/
theorem file_not_opened (opts : HandlerOpts) (evt : Event Str) :
    FileHandler.Output ⟨opts, none⟩ evt =
      .error (str "Output() called on FileHandler created without OpenFile") ∧
    FileHandler.InsertBreak ⟨opts, none⟩ = .error (str "invalid argument") ∧
    str "invalid argument" ≠
      str "Output() called on FileHandler created without OpenFile" := by
  refine ⟨?_, rfl, by decide⟩
  unfold FileHandler.Output
  rw [if_pos rfl]

theorem bucketAdd_fresh {K H : Type} [DecidableEq K] (reg : List (K × List H))
    (k : K) (hs : List H) (h : ∀ e ∈ reg, e.1 ≠ k) :
    bucketAdd reg k hs = reg ++ [(k, hs)] := by
  have hany : reg.any (fun e => e.1 = k) = false := by
    rw [List.any_eq_false]
    intro e he
    simpa using h e he
  simp [bucketAdd, hany]

theorem bucketAdd_last {K H : Type} [DecidableEq K] (acc : List (K × List H))
    (k : K) (cur hs : List H) (h : ∀ e ∈ acc, e.1 ≠ k) :
    bucketAdd (acc ++ [(k, cur)]) k hs = acc ++ [(k, cur ++ hs)] := by
  have hany : (acc ++ [(k, cur)]).any (fun e => e.1 = k) = true := by
    rw [List.any_eq_true]
    exact ⟨(k, cur), List.mem_append.mpr (Or.inr (List.mem_singleton.mpr rfl)),
      by simp⟩
  unfold bucketAdd
  rw [if_pos hany, List.map_append]
  congr 1
  · calc acc.map (fun e => if e.1 = k then (e.1, e.2 ++ hs) else e)
        = acc.map id := List.map_congr_left (fun e he => by simp [h e he])
      _ = acc := List.map_id acc
  · simp

theorem foldl_bucketAdd_singletons {K H : Type} [DecidableEq K] (l : List H)
    (k : K) (acc : List (K × List H)) (cur : List H) (h : ∀ e ∈ acc, e.1 ≠ k) :
    l.foldl (fun a x => bucketAdd a k [x]) (acc ++ [(k, cur)]) =
      acc ++ [(k, cur ++ l)] := by
  induction l generalizing cur with
  | nil => simp
  | cons x rest ih =>
    rw [List.foldl_cons, bucketAdd_last acc k cur [x] h]
    simpa [List.append_assoc] using ih (cur ++ [x])

theorem foldl_bucketAdd_fresh {K H : Type} [DecidableEq K] (l : List H) (k : K)
    (acc : List (K × List H)) (h : ∀ e ∈ acc, e.1 ≠ k) (hne : l ≠ []) :
    l.foldl (fun a x => bucketAdd a k [x]) acc = acc ++ [(k, l)] := by
  cases l with
  | nil => exact absurd rfl hne
  | cons x rest =>
    rw [List.foldl_cons, bucketAdd_fresh acc k [x] h]
    simpa using foldl_bucketAdd_singletons rest k acc [x] h

theorem foldl_nested_bucketAdd {A K H : Type} [DecidableEq K]
    (G : List (A × List H)) (f : A → K) (acc : List (K × List H))
    (hnodup : (G.map (fun g => f g.1)).Nodup)
    (hne : ∀ g ∈ G, g.2 ≠ [])
    (hfresh : ∀ g ∈ G, ∀ a ∈ acc, a.1 ≠ f g.1) :
    G.foldl (fun r g => g.2.foldl (fun rI h => bucketAdd rI (f g.1) [h]) r) acc
      = acc ++ G.map (fun g => (f g.1, g.2)) := by
  induction G generalizing acc with
  | nil => simp
  | cons g rest ih =>
    rw [List.foldl_cons]
    rw [foldl_bucketAdd_fresh g.2 (f g.1) acc
      (fun a ha => hfresh g (List.mem_cons_self g rest) a ha)
      (hne g (List.mem_cons_self g rest))]
    rw [List.map_cons] at hnodup
    have hrest := ih (acc ++ [(f g.1, g.2)]) (List.Nodup.of_cons hnodup)
      (fun x hx => hne x (List.mem_cons_of_mem g hx))
      (fun x hx a ha => by
        rcases List.mem_append.mp ha with hacc | hlast
        · exact hfresh x (List.mem_cons_of_mem g hx) a hacc
        · rcases List.mem_singleton.mp hlast with rfl
          have hnotin : f g.1 ∉ rest.map (fun y => f y.1) := (List.nodup_cons.mp hnodup).1
          intro hcontra
          have heq : f g.1 = f x.1 := hcontra
          exact hnotin (heq.symm ▸ List.mem_map_of_mem (fun y => f y.1) hx))
    rw [hrest]
    simp

theorem reconstructLevel_severity (k : Int) (h : k ≠ minPossibleSeverity) :
    (reconstructLevel k).severity = k := by
  unfold reconstructLevel
  split_ifs with h1 h2 h3 h4 h5 h6 h7 <;>
    simp_all [LvAll, LvFatal, LvError, LvWarn, LvInfo, LvDebug, LvTrace]

theorem registerSeverity_reconstruct (k : Int) (hmax : k ≠ intMax) :
    registerSeverity (reconstructLevel k) = k := by
  by_cases hmin : k = minPossibleSeverity
  · subst hmin
    have h1 : reconstructLevel minPossibleSeverity = LvAll := by
      unfold reconstructLevel
      rw [if_pos rfl]
    rw [h1]
    unfold registerSeverity
    rw [if_pos rfl]
  · have hs := reconstructLevel_severity k hmin
    unfold registerSeverity
    rw [hs, if_neg (by simpa [LvAll] using hmax)]

theorem foldl_addHandler_one_reg {E H : Type} (l : List H) (lv : Level)
    (lg : Logger E H) :
    (l.foldl (fun lgI h => lgI.AddHandler lv h) lg).reg
      = l.foldl (fun rI h => bucketAdd rI (registerSeverity lv) [h]) lg.reg := by
  induction l generalizing lg with
  | nil => rfl
  | cons x rest ih =>
    rw [List.foldl_cons, List.foldl_cons]
    exact ih (lg.AddHandler lv x)

theorem foldl_addHandlers_reg {E H : Type} (L : List (Level × List H))
    (lg0 : Logger E H) :
    (L.foldl (fun lg e => e.2.foldl (fun lgI h => lgI.AddHandler e.1 h) lg) lg0).reg
      = L.foldl
          (fun r e => e.2.foldl (fun rI h => bucketAdd rI (registerSeverity e.1) [h]) r)
          lg0.reg := by
  induction L generalizing lg0 with
  | nil => rfl
  | cons e rest ih =>
    rw [List.foldl_cons, List.foldl_cons,
      ih (e.2.foldl (fun lgI h => lgI.AddHandler e.1 h) lg0),
      foldl_addHandler_one_reg]

theorem New_reg {E H : Type} [GoPayload E] (opts : GOptions E H) :
    (New opts).reg = opts.handlers.foldl
      (fun r e => e.2.foldl (fun rI h => bucketAdd rI (registerSeverity e.1) [h]) r)
      [] := by
  unfold New
  exact foldl_addHandlers_reg opts.handlers _

/-- C8: `Copy` with a no-op (default) options argument preserves the handler
registry exactly: the same handlers at the same severity thresholds.  The
hypotheses are the invariants every `AddHandler`-built registry satisfies:
bucket keys are distinct, buckets are non-empty, and no bucket key equals
`math.MaxInt` (registration at the `ALL` severity is remapped to the
minimum). -/
theorem copy_noop_preserves_registry {E H : Type} [GoPayload E] [DecidableEq H]
    (lg : Logger E H)
    (hnodup : (lg.reg.map (fun e => e.1)).Nodup)
    (hne : ∀ e ∈ lg.reg, e.2 ≠ [])
    (hmax : ∀ e ∈ lg.reg, e.1 ≠ intMax) :
    (lg.Copy (Defaults E H)).reg = lg.reg ∧
    ∀ sev : Int, bucketOf (lg.Copy (Defaults E H)).reg sev = bucketOf lg.reg sev := by
  have hinjkeys : ∀ x ∈ lg.reg.map (fun e => e.1), ∀ y ∈ lg.reg.map (fun e => e.1),
      reconstructLevel x = reconstructLevel y → x = y := by
    intro x hx y hy hexy
    obtain ⟨ex, hex, rfl⟩ := List.mem_map.mp hx
    obtain ⟨ey, hey, rfl⟩ := List.mem_map.mp hy
    have := congrArg registerSeverity hexy
    rwa [registerSeverity_reconstruct _ (hmax ex hex),
      registerSeverity_reconstruct _ (hmax ey hey)] at this
  have hstep1 :
      ((lg.reg.map (fun e => e.2.map (fun h => (h, e.1)))).flatten).foldl
          (fun acc entry => bucketAdd acc (reconstructLevel entry.2) [entry.1]) [] =
        lg.reg.map (fun e => (reconstructLevel e.1, e.2)) := by
    rw [List.foldl_flatten, List.foldl_map]
    simp only [List.foldl_map]
    have hnodup' : (lg.reg.map (fun e => reconstructLevel e.1)).Nodup := by
      have hmm : lg.reg.map (fun e => reconstructLevel e.1)
          = (lg.reg.map (fun e => e.1)).map reconstructLevel := by
        simp [List.map_map]
      rw [hmm]
      exact List.Nodup.map_on hinjkeys hnodup
    simpa using foldl_nested_bucketAdd lg.reg reconstructLevel [] hnodup' hne
      (fun g _ a ha => absurd ha (List.not_mem_nil a))
  have hcopy : (lg.Copy (Defaults E H)).reg =
      (New { component := lg.component, formatter := lg.formatter,
             converter := some lg.converter,
             handlers := ((lg.reg.map (fun e => e.2.map (fun h => (h, e.1)))).flatten).foldl
               (fun acc entry => bucketAdd acc (reconstructLevel entry.2) [entry.1]) []
             } : Logger E H).reg := rfl
  have h2 := New_reg
    ({ component := lg.component, formatter := lg.formatter,
       converter := some lg.converter,
       handlers := ((lg.reg.map (fun e => e.2.map (fun h => (h, e.1)))).flatten).foldl
         (fun acc entry => bucketAdd acc (reconstructLevel entry.2) [entry.1]) []
       } : GOptions E H)
  dsimp only at h2
  have hmain : (lg.Copy (Defaults E H)).reg = lg.reg := by
    rw [hcopy, h2, hstep1]
    have hN : ((lg.reg.map (fun e => (reconstructLevel e.1, e.2))).map
        (fun g => registerSeverity g.1)).Nodup := by
      have heq : (lg.reg.map (fun e => (reconstructLevel e.1, e.2))).map
          (fun g => registerSeverity g.1) = lg.reg.map (fun e => e.1) := by
        rw [List.map_map]
        exact List.map_congr_left
          (fun e he => registerSeverity_reconstruct e.1 (hmax e he))
      rw [heq]
      exact hnodup
    have hE : ∀ g ∈ lg.reg.map (fun e => (reconstructLevel e.1, e.2)), g.2 ≠ [] := by
      intro g hg
      obtain ⟨e, he, rfl⟩ := List.mem_map.mp hg
      exact hne e he
    have hfill := foldl_nested_bucketAdd
      (lg.reg.map (fun e => (reconstructLevel e.1, e.2)))
      registerSeverity [] hN hE (fun g _ a ha => absurd ha (List.not_mem_nil a))
    simp only [List.nil_append] at hfill
    rw [hfill, List.map_map]
    have hfinal : lg.reg.map ((fun g => (registerSeverity g.1, g.2)) ∘
        (fun e => (reconstructLevel e.1, e.2))) = lg.reg.map (fun e => (e.1, e.2)) :=
      List.map_congr_left (fun e he => by
        simp [registerSeverity_reconstruct e.1 (hmax e he)])
    rw [hfinal]
    simp
  exact ⟨hmain, fun sev => by rw [hmain]⟩

/-- Witness for C8: a concrete logger with one handler at INFO and one at
the ALL sentinel; `Copy` with the default options preserves the registry. -/
theorem copy_noop_preserves_registry_witness :
    ((((New (Defaults Str Nat)).AddHandler LvInfo 1).AddHandler LvAll 2).Copy
        (Defaults Str Nat)).reg =
      (((New (Defaults Str Nat)).AddHandler LvInfo 1).AddHandler LvAll 2).reg :=
  (copy_noop_preserves_registry
    (((New (Defaults Str Nat)).AddHandler LvInfo 1).AddHandler LvAll 2)
    (by decide) (by decide) (by decide)).1

theorem withNL_ends_nl (m : Str) : ['\n'] <:+ withNL m := by
  unfold withNL
  by_cases h : ['\n'].isSuffixOf m
  · rw [if_pos h]
    exact List.isSuffixOf_iff_suffix.mp h
  · rw [if_neg h]
    exact List.suffix_append m ['\n']

theorem suffix2_snoc_iff (m : Str) (h : ¬ ['\n'] <:+ m) :
    ¬ ['\n','\n'] <:+ m ++ ['\n'] := by
  intro hsfx
  obtain ⟨t, ht⟩ := hsfx
  have ht' : (t ++ ['\n']) ++ ['\n'] = m ++ ['\n'] := by
    rw [← ht]
    simp
  have := List.append_cancel_right ht'
  exact h ⟨t, this⟩

theorem withNL_double_iff (m : Str) :
    ['\n','\n'] <:+ withNL m ↔ ['\n','\n'] <:+ m := by
  unfold withNL
  by_cases h : ['\n'].isSuffixOf m
  · rw [if_pos h]
  · rw [if_neg h]
    have hns : ¬ ['\n'] <:+ m := fun hc => h (List.isSuffixOf_iff_suffix.mpr hc)
    constructor
    · intro hc
      exact absurd hc (suffix2_snoc_iff m hns)
    · intro hc
      exact absurd (List.IsSuffix.trans ⟨['\n'], rfl⟩ hc) hns

theorem suffix2_across_append (A m' : Str) (hm : ['\n'] <:+ m') :
    ['\n','\n'] <:+ (A ++ [' ']) ++ m' ↔ ['\n','\n'] <:+ m' := by
  obtain ⟨t, ht⟩ := hm
  constructor
  · intro hc
    obtain ⟨s, hs⟩ := hc
    have hs' : (s ++ ['\n']) ++ ['\n'] = ((A ++ [' ']) ++ t) ++ ['\n'] := by
      have e1 : (s ++ ['\n']) ++ ['\n'] = s ++ ['\n', '\n'] := by simp
      have e2 : ((A ++ [' ']) ++ t) ++ ['\n'] = (A ++ [' ']) ++ m' := by
        rw [List.append_assoc, ht]
      rw [e1, e2]
      exact hs
    have hcancel := List.append_cancel_right hs'
    cases t with
    | nil =>
      exfalso
      have hcancel' : s ++ ['\n'] = A ++ [' '] := by simpa using hcancel
      have hlen : s.length = A.length := by
        have := congrArg List.length hcancel'
        simpa using this
      have := (List.append_inj hcancel' hlen).2
      simp at this
    | cons c t' =>
      have hlast : (c :: t').getLast? = some '\n' := by
        have h1 : (s ++ ['\n']).getLast? = some '\n' := List.getLast?_concat s
        rw [hcancel, List.getLast?_append_of_ne_nil _ (by simp)] at h1
        exact h1
      obtain ⟨u, hu⟩ := List.getLast?_eq_some_iff.mp hlast
      refine ⟨u, ?_⟩
      rw [← ht, hu]
      simp
  · intro hc
    exact hc.trans (List.suffix_append _ _)

theorem format_decomp (lf : LineFormat) (evt : Event Str) :
    ∃ A, lf.Format evt = (A ++ [' ']) ++ withNL evt.message := by
  simp only [LineFormat.Format]
  by_cases h : evt.component ≠ []
  · rw [if_pos h]
    refine ⟨formatTime evt.time lf.UTC lf.ShowMircoseconds ++ [' '] ++
      padLevel evt.level.name ++ [' ', '('] ++ evt.component ++ [')'], ?_⟩
    simp
  · rw [if_neg h]
    exact ⟨formatTime evt.time lf.UTC lf.ShowMircoseconds ++ [' '] ++
      padLevel evt.level.name, rfl⟩

/-- Counterexample to C5 as stated: for the input message `"a\n\n"` (which
already ends in two newlines) the canonical formatter's output ends in a
double newline, so the output does not end in exactly one trailing
newline. -/
theorem format_trailing_newline_counterexample :
    ['\n','\n'] <:+ LineFormat.Format defFormatter
      ⟨[], ⟨⟨0,0,0,0,0,0,0⟩, ⟨0,0,0,0,0,0,0⟩⟩, LvInfo, str "a\n\n"⟩ :=
  ⟨str "0000/00/00 00:00:00 INFO  a", by decide⟩

/-- C5 (amended): the canonical formatter's output always ends in at least
one newline — one is appended exactly when the input message lacks one, and
a pre-existing trailing newline is never duplicated: the output ends in a
double newline if and only if the input message itself already ends in a
double newline (so for every message not ending in two or more newlines the
output ends in exactly one). -/
theorem format_trailing_newline (lf : LineFormat) (evt : Event Str) :
    ['\n'] <:+ lf.Format evt ∧
    (['\n','\n'] <:+ lf.Format evt ↔ ['\n','\n'] <:+ evt.message) := by
  obtain ⟨A, hA⟩ := format_decomp lf evt
  rw [hA]
  refine ⟨(withNL_ends_nl evt.message).trans (List.suffix_append _ _), ?_⟩
  rw [suffix2_across_append A (withNL evt.message) (withNL_ends_nl evt.message)]
  exact withNL_double_iff evt.message

theorem foldl_addHandler_one_converter {E H : Type} (l : List H) (lv : Level)
    (lg : Logger E H) :
    (l.foldl (fun lgI h => lgI.AddHandler lv h) lg).converter = lg.converter := by
  induction l generalizing lg with
  | nil => rfl
  | cons x rest ih =>
    rw [List.foldl_cons]
    exact ih (lg.AddHandler lv x)

theorem foldl_addHandlers_converter {E H : Type} (L : List (Level × List H))
    (lg0 : Logger E H) :
    (L.foldl (fun lg e => e.2.foldl (fun lgI h => lgI.AddHandler e.1 h) lg) lg0).converter
      = lg0.converter := by
  induction L generalizing lg0 with
  | nil => rfl
  | cons e rest ih =>
    rw [List.foldl_cons, ih (e.2.foldl (fun lgI h => lgI.AddHandler e.1 h) lg0),
      foldl_addHandler_one_converter]

theorem New_converter {E H : Type} [GoPayload E] (opts : GOptions E H) :
    (New opts).converter =
      match opts.converter with
      | some c => c
      | none =>
        if @GoPayload.isString E _ then fun v => GoPayload.fromString (sprintfV v)
        else fun _ => @GoPayload.zero E _ := by
  unfold New
  rw [foldl_addHandlers_converter]

/-- C9: a Logger built by `New` with no converter supplied gets a default
converter that, when the payload type is the string type, renders any input
value as text via the generic `%v` stringification; for any non-string
payload type the default converter returns the payload type's zero value on
every input. -/
theorem new_default_converter :
    (∀ (H' : Type) (opts : GOptions Str H'), opts.converter = none →
      ∀ v, (New opts).converter v = sprintfV v) ∧
    (∀ (E H' : Type) (inst : GoPayload E) (opts : GOptions E H'),
      opts.converter = none → @GoPayload.isString E inst = false →
      ∀ v, (@New E H' inst opts).converter v = @GoPayload.zero E inst) := by
  constructor
  · intro H' opts hnone v
    rw [New_converter, hnone]
    rfl
  · intro E H' inst opts hnone hfalse v
    rw [New_converter, hnone]
    simp [hfalse]

/-- Witness for C9: the string-payload default converter renders the int 5
as `"5"`; the Int-payload default converter returns 0 on the same input. -/
theorem new_default_converter_witness :
    (New (Defaults Str Nat)).converter (GoValue.vint 5) = sprintfV (GoValue.vint 5) ∧
    (New (Defaults Int Nat)).converter (GoValue.vint 5) = (0 : Int) :=
  ⟨new_default_converter.1 Nat (Defaults Str Nat) rfl (GoValue.vint 5),
   new_default_converter.2 Int Nat _ (Defaults Int Nat) rfl rfl (GoValue.vint 5)⟩

theorem countSub_le_count (l : Str) (c : Char) (p : Str) :
    countSub l (c :: p) ≤ List.count c l := by
  induction l with
  | nil => simp [countSub]
  | cons a rest ih =>
    rw [countSub, List.count_cons]
    by_cases h : (c :: p).isPrefixOf (a :: rest)
    · rw [if_pos h]
      have hca : c = a :=
        (List.cons_prefix_cons.mp (List.isPrefixOf_iff_prefix.mp h)).1
      rw [if_pos (by simp [hca])]
      omega
    · rw [if_neg h]
      have : (0:Nat) ≤ if (a == c) = true then 1 else 0 := Nat.zero_le _
      omega

theorem one_le_countSub_of_infix (pat s t : Str) :
    1 ≤ countSub (s ++ pat ++ t) pat := by
  induction s with
  | nil =>
    rw [List.nil_append]
    by_cases hnil : pat ++ t = []
    · obtain ⟨hp, _⟩ := List.append_eq_nil.mp hnil
      rw [hnil, hp]
      simp [countSub]
    · obtain ⟨a, rest, har⟩ := List.exists_cons_of_ne_nil hnil
      rw [har, countSub]
      rw [if_pos (List.isPrefixOf_iff_prefix.mpr ⟨t, har⟩)]
      omega
  | cons x s' ih =>
    rw [List.cons_append, List.cons_append, countSub]
    calc 1 ≤ countSub (s' ++ pat ++ t) pat := ih
      _ ≤ _ := Nat.le_add_left _ _

theorem mem_itoaCore (fuel i : Nat) (wid : Int) (acc : Str) (c : Char)
    (h : c ∈ itoaCore fuel i wid acc) :
    c ∈ str "0123456789" ∨ c ∈ acc := by
  induction fuel generalizing i wid acc with
  | zero => exact Or.inr h
  | succ fuel ih =>
    rw [itoaCore] at h
    by_cases hc : i ≥ 10 ∨ wid > 1
    · rw [if_pos hc] at h
      rcases ih (i / 10) (wid - 1) _ h with hd | hmem
      · exact Or.inl hd
      · rcases List.mem_cons.mp hmem with hh | hacc
        · left
          rw [hh]
          have hk : i % 10 < 10 := Nat.mod_lt i (by omega)
          set k := i % 10 with hkdef
          interval_cases k <;> decide
        · exact Or.inr hacc
    · rw [if_neg hc] at h
      rcases List.mem_cons.mp h with hh | hacc
      · left
        rw [hh]
        have hi : i < 10 := by omega
        interval_cases i <;> decide
      · exact Or.inr hacc

theorem paren_not_mem_itoa (i : Nat) (wid : Int) : '(' ∉ itoa i wid := by
  intro h
  rcases mem_itoaCore _ _ _ _ _ h with hd | hf
  · exact absurd hd (by decide)
  · exact absurd hf (List.not_mem_nil _)

theorem paren_not_mem_formatTime (t : GoTime) (utc micros : Bool) :
    '(' ∉ formatTime t utc micros := by
  unfold formatTime
  cases utc <;> cases micros <;>
    simp [List.mem_append, paren_not_mem_itoa]

theorem count_paren_withNL (m : Str) (h : '(' ∉ m) :
    List.count '(' (withNL m) = 0 := by
  unfold withNL
  split_ifs
  · exact List.count_eq_zero.mpr h
  · rw [List.count_append, List.count_eq_zero.mpr h]
    simp

theorem count_paren_padLevel (nm : Str) (h : '(' ∉ nm) :
    List.count '(' (padLevel nm) = 0 := by
  unfold padLevel
  rw [List.count_append, List.count_eq_zero.mpr h, List.count_replicate]
  simp

/-- C6 (amended): for every event with a non-empty component none of whose
relevant fields contains a `'('` character, the formatter's output is
exactly timestamp, space, level name left-justified to a minimum width of 5
with trailing spaces (never truncated — the name is a prefix of the padded
field, whose length is `max (name length) 5`), the component wrapped in
parentheses, a space, and the newline-terminated message; the parenthesized
component occurs exactly once as a substring of the output. -/
theorem format_component_parenthesized (lf : LineFormat) (evt : Event Str)
    (h1 : evt.component ≠ []) (h2 : '(' ∉ evt.component)
    (h3 : '(' ∉ evt.level.name) (h4 : '(' ∉ evt.message) :
    lf.Format evt =
      formatTime evt.time lf.UTC lf.ShowMircoseconds ++ [' ']
        ++ padLevel evt.level.name ++ [' ', '('] ++ evt.component ++ [')', ' ']
        ++ withNL evt.message ∧
    countSub (lf.Format evt) ('(' :: (evt.component ++ [')'])) = 1 ∧
    evt.level.name <+: padLevel evt.level.name ∧
    (padLevel evt.level.name).length = max evt.level.name.length 5 := by
  have hstruct : lf.Format evt =
      formatTime evt.time lf.UTC lf.ShowMircoseconds ++ [' ']
        ++ padLevel evt.level.name ++ [' ', '('] ++ evt.component ++ [')', ' ']
        ++ withNL evt.message := by
    simp only [LineFormat.Format]
    rw [if_pos h1]
  refine ⟨hstruct, ?_, List.prefix_append _ _, ?_⟩
  · have hcount : List.count '(' (lf.Format evt) = 1 := by
      rw [hstruct]
      simp only [List.count_append]
      rw [List.count_eq_zero.mpr
          (paren_not_mem_formatTime evt.time lf.UTC lf.ShowMircoseconds),
        List.count_eq_zero.mpr h2, count_paren_padLevel evt.level.name h3,
        count_paren_withNL evt.message h4]
      decide
    have hle := countSub_le_count (lf.Format evt) '(' (evt.component ++ [')'])
    rw [hcount] at hle
    have hge : 1 ≤ countSub (lf.Format evt) ('(' :: (evt.component ++ [')'])) := by
      have hmid : lf.Format evt =
          (formatTime evt.time lf.UTC lf.ShowMircoseconds ++ [' ']
            ++ padLevel evt.level.name ++ [' '])
          ++ ('(' :: (evt.component ++ [')']))
          ++ ([' '] ++ withNL evt.message) := by
        rw [hstruct]
        simp
      rw [hmid]
      exact one_le_countSub_of_infix _ _ _
    omega
  · simp [padLevel]
    omega

/-- Counterexample to C6 as stated: with component `"c"` and message
`"(c)"`, the output contains the parenthesized component `"(c)"` twice, not
exactly once. -/
theorem format_component_parenthesized_counterexample :
    countSub (LineFormat.Format defFormatter
        ⟨str "c", ⟨⟨0,0,0,0,0,0,0⟩, ⟨0,0,0,0,0,0,0⟩⟩, LvInfo, str "(c)"⟩)
      ('(' :: (str "c" ++ [')'])) = 2 := by
  decide

/-- Witness for the amended C6 at a concrete event. -/
theorem format_component_parenthesized_witness :
    countSub (LineFormat.Format defFormatter
        ⟨str "server", ⟨⟨0,0,0,0,0,0,0⟩, ⟨0,0,0,0,0,0,0⟩⟩, LvInfo, str "hello"⟩)
      ('(' :: (str "server" ++ [')'])) = 1 :=
  (format_component_parenthesized defFormatter
    ⟨str "server", ⟨⟨0,0,0,0,0,0,0⟩, ⟨0,0,0,0,0,0,0⟩⟩, LvInfo, str "hello"⟩
    (by decide) (by decide) (by decide) (by decide)).2.1
